import Mathlib

/-!
Verification of the Credential Store Engine of SecuronisPasswordManager
(src/passmanager.py) against its natural-language specification.

The engine keeps an in-memory object `self.passwords`, a JSON object whose
key "categories" maps category names to services, each service mapping to a
record `{username, password, tags}`.  Persistence is
`fernet.encrypt(json.dumps(passwords))` written to a single file, and
`json.loads(fernet.decrypt(bytes))` on load.

Modelling conventions:
- JSON values are the inductive `Json`; Python dicts are association lists
  of string keys (Python dicts preserve insertion order, which the engine
  relies on for first-match scans and result merging).  Since real dicts
  never hold duplicate keys, `eraseKey` removes every occurrence of a key
  and `setKey` replaces the first; both agree with dict semantics on every
  representable (duplicate-free) state.
- The typed layer (`Record`, `Services`, `CatMap`) is the well-formed shape
  that `add_password` always writes; `tags = none` models a legacy record
  whose JSON object lacks the "tags" key.
- The Fernet library is modelled by its contract: an authenticated token
  that decrypts to the exact plaintext under the same key and raises
  InvalidToken under any other key.  A plaintext is `Option Json`: the
  parse result of the decrypted text, `none` standing for text that is not
  valid JSON (json.loads raises JSONDecodeError there).
-/

inductive Json where
  | null : Json
  | bool : Bool → Json
  | num : Int → Json
  | str : String → Json
  | arr : List Json → Json
  | obj : List (String × Json) → Json

/-- Value of the first occurrence of key `k`, as Python dict lookup. -/
def lookupKey {α : Type} (l : List (String × α)) (k : String) : Option α :=
  match l with
  | [] => none
  | (k', v) :: rest => if k' = k then some v else lookupKey rest k

/-- Python `k in d` on a dict: is `k` a key of the association list. -/
def containsKey {α : Type} (l : List (String × α)) (k : String) : Bool :=
  match l with
  | [] => false
  | (k', _) :: rest => if k' = k then true else containsKey rest k

/-- Python `d[k] = v`: replace the value at the first occurrence of `k`
(keeping its position, as dict assignment does), else append `(k, v)`. -/
def setKey {α : Type} (l : List (String × α)) (k : String) (v : α) :
    List (String × α) :=
  match l with
  | [] => [(k, v)]
  | (k', v') :: rest =>
      if k' = k then (k', v) :: rest else (k', v') :: setKey rest k v

/-- Python `d.pop(k, None)` / `del d[k]` (guarded): remove the key. -/
def eraseKey {α : Type} (l : List (String × α)) (k : String) :
    List (String × α) :=
  match l with
  | [] => []
  | (k', v') :: rest =>
      if k' = k then eraseKey rest k else (k', v') :: eraseKey rest k

/-- A credential record as written by `add_password`:
`{'username': u, 'password': p, 'tags': ts}`.  `tags = none` models a
loaded legacy record whose JSON object has no "tags" key. -/
structure Record where
  username : String
  password : String
  tags : Option (List String)
  deriving Repr, DecidableEq

/-- One category: service name → record, Python dict as association list. -/
abbrev Services := List (String × Record)

/-- The category mapping `self.passwords["categories"]`. -/
abbrev CatMap := List (String × Services)

/-- JSON encoding of a record, exactly the object `add_password` stores
(the "tags" key is omitted for a legacy record). -/
def recToJson (r : Record) : Json :=
  Json.obj ([("username", Json.str r.username),
             ("password", Json.str r.password)] ++
            (match r.tags with
             | none => []
             | some ts => [("tags", Json.arr (ts.map Json.str))]))

/-- JSON encoding of a category (service → record object). -/
def svcsToJson (svcs : Services) : Json :=
  Json.obj (svcs.map (fun p => (p.1, recToJson p.2)))

/-- JSON encoding of the category mapping. -/
def catsToJson (cats : CatMap) : Json :=
  Json.obj (cats.map (fun p => (p.1, svcsToJson p.2)))

/-- JSON encoding of the whole persisted database object
`{"categories": {...}}` that `json.dumps(self.passwords)` serializes. -/
def dbToJson (cats : CatMap) : Json :=
  Json.obj [("categories", catsToJson cats)]

/-- Decode a JSON array of strings (a stored tag list). -/
def strListFromJson : List Json → Option (List String)
  | [] => some []
  | Json.str s :: rest =>
      match strListFromJson rest with
      | some l => some (s :: l)
      | none => none
  | _ => none

/-- Decode a record object of one of the two shapes the engine writes. -/
def jsonToRec : Json → Option Record
  | Json.obj [("username", Json.str u), ("password", Json.str p)] =>
      some ⟨u, p, none⟩
  | Json.obj [("username", Json.str u), ("password", Json.str p),
              ("tags", Json.arr ts)] =>
      match strListFromJson ts with
      | some l => some ⟨u, p, some l⟩
      | none => none
  | _ => none

/-- Decode a category object. -/
def svcsFromFields : List (String × Json) → Option Services
  | [] => some []
  | (s, j) :: rest =>
      match jsonToRec j, svcsFromFields rest with
      | some r, some rs => some ((s, r) :: rs)
      | _, _ => none

def jsonToSvcs : Json → Option Services
  | Json.obj fields => svcsFromFields fields
  | _ => none

/-- Decode the category mapping. -/
def catsFromFields : List (String × Json) → Option CatMap
  | [] => some []
  | (c, j) :: rest =>
      match jsonToSvcs j, catsFromFields rest with
      | some svcs, some cs => some ((c, svcs) :: cs)
      | _, _ => none

def jsonToCats : Json → Option CatMap
  | Json.obj fields => catsFromFields fields
  | _ => none

/-- Decode the persisted database object back into the category mapping. -/
def jsonToDb : Json → Option CatMap
  | Json.obj [("categories", c)] => jsonToCats c
  | _ => none

/-! Python-level errors surfaced by the load / construct path. -/

inductive PyErr where
  | invalidToken : PyErr      -- cryptography.fernet.InvalidToken
  | jsonDecodeError : PyErr   -- json.JSONDecodeError
  | typeError : PyErr         -- TypeError from a dict op on a non-dict
  | keyError : PyErr          -- KeyError from d[k] with k absent
  | attributeError : PyErr    -- AttributeError from .items() on a non-dict
  deriving Repr, DecidableEq

abbrev Key := Nat

/-- The encrypted blob on disk.  Models the Fernet library contract:
the token carries the key it was made with and the plaintext; `plaintext`
is the JSON parse of the decrypted text, `none` for text that json.loads
rejects. -/
structure Blob where
  key : Key
  plaintext : Option Json

/-- Models `fernet.encrypt(json.dumps(db).encode())`: the ciphertext token
for plaintext `j` under `k`. -/
def fernetEncrypt (k : Key) (j : Json) : Blob := ⟨k, some j⟩

/-- Models `fernet.decrypt`: returns the plaintext under the right key and
raises InvalidToken under any other key (authenticated encryption). -/
def fernetDecrypt (k : Key) (b : Blob) : Except PyErr (Option Json) :=
  if k = b.key then Except.ok b.plaintext else Except.error PyErr.invalidToken

/-- Models `json.loads` applied to the decrypted text. -/
def jsonLoads (pt : Option Json) : Except PyErr Json :=
  match pt with
  | some j => Except.ok j
  | none => Except.error PyErr.jsonDecodeError

/-- PasswordManager.load_passwords (src/passmanager.py:57-63): if the blob
file exists, read it, decrypt, and json.loads the plaintext; otherwise
return the empty dict `{}`. -/
def load_passwords (k : Key) (file : Option Blob) : Except PyErr Json :=
  match file with
  | some b =>
      match fernetDecrypt k b with
      | Except.ok pt => jsonLoads pt
      | Except.error e => Except.error e
  | none => Except.ok (Json.obj [])

/-- PasswordManager.save_passwords (src/passmanager.py:65-69) restricted to
the data it writes: `fernet.encrypt(json.dumps(self.passwords))` where
`self.passwords` is the database object. -/
def save_passwords (k : Key) (cats : CatMap) : Blob :=
  fernetEncrypt k (dbToJson cats)

/-! Python dynamic semantics for the dict operations that
`PasswordManager.__init__`, `check_and_migrate_categories` and
`migrate_categories` perform on the loaded JSON value.  Each helper mirrors
what CPython does when the operand is not of the expected type. -/

/-- Bool-valued prefix test on character lists. -/
def isPrefixList : List Char → List Char → Bool
  | [], _ => true
  | _ :: _, [] => false
  | a :: as, b :: bs => if a = b then isPrefixList as bs else false

/-- Bool-valued substring test on character lists. -/
def substrList (needle : List Char) : List Char → Bool
  | [] => isPrefixList needle []
  | c :: rest =>
      if isPrefixList needle (c :: rest) then true else substrList needle rest

/-- Python `needle in hay` on strings: substring containment. -/
def substr (needle hay : String) : Bool := substrList needle.data hay.data

/-- Python `s.lower()` restricted to ASCII (the engine only compares
identifiers and tags; the model applies Char.toLower characterwise). -/
def lowerStr (s : String) : String := String.mk (s.data.map Char.toLower)

/-- Python list membership comparing an element against a string. -/
def jsonEqStr (j : Json) (s : String) : Bool :=
  match j with
  | Json.str t => t == s
  | _ => false

/-- Python `k in x`: key test on a dict, membership on a list, substring on
a string; TypeError on numbers, booleans and None. -/
def pyContains (j : Json) (k : String) : Except PyErr Bool :=
  match j with
  | Json.obj fields => Except.ok (containsKey fields k)
  | Json.arr items => Except.ok (items.any (fun e => jsonEqStr e k))
  | Json.str t => Except.ok (substr k t)
  | _ => Except.error PyErr.typeError

/-- Python `x[k]` with a string subscript: dict lookup (KeyError when the
key is absent); TypeError on every other type. -/
def pyGetItem (j : Json) (k : String) : Except PyErr Json :=
  match j with
  | Json.obj fields =>
      match lookupKey fields k with
      | some v => Except.ok v
      | none => Except.error PyErr.keyError
  | _ => Except.error PyErr.typeError

/-- Python `x[k] = v` with a string subscript: dict assignment; TypeError
on every other type. -/
def pySetItem (j : Json) (k : String) (v : Json) : Except PyErr Json :=
  match j with
  | Json.obj fields => Except.ok (Json.obj (setKey fields k v))
  | _ => Except.error PyErr.typeError

/-- Python `x.items()`: the field list of a dict; AttributeError on every
other type. -/
def pyItems (j : Json) : Except PyErr (List (String × Json)) :=
  match j with
  | Json.obj fields => Except.ok fields
  | _ => Except.error PyErr.attributeError

/-- Python `x.pop(k, None)`: remove the key from a dict (no error when
absent); AttributeError on every other type. -/
def pyPop (j : Json) (k : String) : Except PyErr Json :=
  match j with
  | Json.obj fields => Except.ok (Json.obj (eraseKey fields k))
  | _ => Except.error PyErr.attributeError

/-- The default category list of `PasswordManager.__init__`
(src/passmanager.py:28). -/
def defaultCategories : List String :=
  ["Internet", "Gaming", "Coding", "Shopping", "Social", "Computer", "World"]

/-- The legacy category identifiers (src/passmanager.py:74 and 88). -/
def oldCategories : List String := ["1", "2", "3", "4"]

/-- The new category names used by `migrate_categories`
(src/passmanager.py:89), textually identical to the default list. -/
def newCategories : List String :=
  ["Internet", "Gaming", "Coding", "Shopping", "Social", "Computer", "World"]

/-- The category-creation loop of `__init__` (src/passmanager.py:31-32):
`self.passwords["categories"][category] = {}` for each default category,
modelled as read-modify-write on the aliased inner dict. -/
def initCreateLoop : List String → Json → Except PyErr Json
  | [], p => Except.ok p
  | c :: rest, p => do
      let cats ← pyGetItem p "categories"
      let cats2 ← pySetItem cats c (Json.obj [])
      let p2 ← pySetItem p "categories" cats2
      initCreateLoop rest p2

/-- The needs-migration loop of `check_and_migrate_categories`
(src/passmanager.py:77-81): scan the legacy identifiers, breaking at the
first one present as a key of `self.passwords["categories"]`. -/
def needsMigrationLoop : List String → Json → Except PyErr Bool
  | [], _ => Except.ok false
  | o :: rest, p => do
      let cats ← pyGetItem p "categories"
      let b ← pyContains cats o
      if b then Except.ok true else needsMigrationLoop rest p

/-- The ensure-new-categories loop of `migrate_categories`
(src/passmanager.py:92-94). -/
def ensureLoopPy : List String → Json → Except PyErr Json
  | [], p => Except.ok p
  | nc :: rest, p => do
      let cats ← pyGetItem p "categories"
      let b ← pyContains cats nc
      if b then ensureLoopPy rest p
      else do
        let cats2 ← pySetItem cats nc (Json.obj [])
        let p2 ← pySetItem p "categories" cats2
        ensureLoopPy rest p2

/-- The inner copy loop of `migrate_categories` (src/passmanager.py:101-102):
`self.passwords["categories"][new_cat][service] = data` for each item of the
legacy category. -/
def copyServicesPy : List (String × Json) → String → Json → Except PyErr Json
  | [], _, p => Except.ok p
  | (s, d) :: rest, nc, p => do
      let cats ← pyGetItem p "categories"
      let ncVal ← pyGetItem cats nc
      let ncVal2 ← pySetItem ncVal s d
      let cats2 ← pySetItem cats nc ncVal2
      let p2 ← pySetItem p "categories" cats2
      copyServicesPy rest nc p2

/-- One iteration of the outer loop of `migrate_categories`
(src/passmanager.py:97-104): when the legacy key is present and the index is
in range, copy its services into the index-aligned new category and pop the
legacy key. -/
def migrateStepPy (i : Nat) (oc : String) (p : Json) : Except PyErr Json := do
  let cats ← pyGetItem p "categories"
  let b ← pyContains cats oc
  if b && decide (i < newCategories.length) then do
    let ocVal ← pyGetItem cats oc
    let items ← pyItems ocVal
    let p2 ← copyServicesPy items (newCategories.getD i "") p
    let cats2 ← pyGetItem p2 "categories"
    let cats3 ← pyPop cats2 oc
    pySetItem p2 "categories" cats3
  else Except.ok p

def migrateLoopPy : List (Nat × String) → Json → Except PyErr Json
  | [], p => Except.ok p
  | (i, oc) :: rest, p => do
      let p2 ← migrateStepPy i oc p
      migrateLoopPy rest p2

/-- PasswordManager.migrate_categories (src/passmanager.py:86-106) as a
state transformer on the in-memory passwords object (the trailing
save_passwords call does not change the in-memory state). -/
def migrate_categories_py (p : Json) : Except PyErr Json := do
  let p2 ← ensureLoopPy newCategories p
  migrateLoopPy oldCategories.enum p2

/-- PasswordManager.check_and_migrate_categories (src/passmanager.py:71-84). -/
def check_and_migrate_categories_py (p : Json) : Except PyErr Json := do
  let needs ← needsMigrationLoop oldCategories p
  if needs then migrate_categories_py p else Except.ok p

/-- PasswordManager.__init__ (src/passmanager.py:19-36) from the point the
key is available: load the blob, create the default categories when the
loaded object has no "categories" key, then check-and-migrate.  Returns the
resulting in-memory passwords object, or the Python exception that escapes
the constructor. -/
def initStore (k : Key) (file : Option Blob) : Except PyErr Json := do
  let passwords ← load_passwords k file
  let hasCats ← pyContains passwords "categories"
  let p ←
    if hasCats then Except.ok passwords
    else do
      let p ← pySetItem passwords "categories" (Json.obj [])
      initCreateLoop defaultCategories p
  check_and_migrate_categories_py p

/-! File-system effect trace of save_passwords, for the atomicity claim. -/

/-- One file-system side effect.  `renameInto` is the atomic-replace
operation the specification demands; it is listed so that its absence from
the trace of save_passwords is expressible. -/
inductive FsOp where
  | makedirsParent : String → FsOp   -- os.makedirs(os.path.dirname(p), exist_ok=True)
  | openTruncWrite : String → FsOp   -- open(p, mode wb): truncates an existing file
  | writeBytes : String → FsOp       -- file.write(encrypted_data)
  | renameInto : String → String → FsOp  -- os.replace(tmp, p): atomic replace
  deriving Repr, DecidableEq

/-- The exact sequence of file-system operations performed by
PasswordManager.save_passwords (src/passmanager.py:65-69) on its blob path. -/
def save_passwords_trace (file_path : String) : List FsOp :=
  [FsOp.makedirsParent file_path,
   FsOp.openTruncWrite file_path,
   FsOp.writeBytes file_path]

def isRenameOp (op : FsOp) : Bool :=
  match op with
  | FsOp.renameInto _ _ => true
  | _ => false

/-! The typed engine operations.  They act on the well-formed category
mapping (the shape every state written by this engine has); each mirrors
its source method line by line. -/

/-- Python truthiness of an optional string argument: `if category:` is
false both for None and for the empty string. -/
def truthy (s : Option String) : Bool := s.getD "" != ""

/-- PasswordManager.add_password (src/passmanager.py:108-121): create the
category when absent, then upsert the record; a missing tags argument
becomes the empty list. -/
def add_password (cats : CatMap) (service username password category : String)
    (tags : Option (List String)) : CatMap :=
  let cats1 := if containsKey cats category then cats else setKey cats category []
  let svcs := (lookupKey cats1 category).getD []
  setKey cats1 category
    (setKey svcs service ⟨username, password, some (tags.getD [])⟩)

/-- The replacement record built by PasswordManager.update_password
(src/passmanager.py:136-147): keep the existing tag list when the tags
argument is None (empty when the old record has no tags key), else take the
given list. -/
def newRecFor (r : Record) (username password : String)
    (tags : Option (List String)) : Record :=
  ⟨username, password, some (tags.getD (r.tags.getD []))⟩

/-- The all-categories scan of update_password (src/passmanager.py:151-165):
update the first category containing the service. -/
def update_scan (service username password : String)
    (tags : Option (List String)) : CatMap → CatMap × Bool
  | [] => ([], false)
  | (c, svcs) :: rest =>
      match lookupKey svcs service with
      | some r =>
          ((c, setKey svcs service (newRecFor r username password tags)) :: rest,
           true)
      | none =>
          let res := update_scan service username password tags rest
          ((c, svcs) :: res.1, res.2)

/-- PasswordManager.update_password (src/passmanager.py:134-166).  The
returned Bool is the method's return value; it is true exactly when
save_passwords was called. -/
def update_password (cats : CatMap) (service username password : String)
    (category : Option String) (tags : Option (List String)) : CatMap × Bool :=
  if truthy category then
    match lookupKey cats (category.getD "") with
    | some svcs =>
        match lookupKey svcs service with
        | some r =>
            (setKey cats (category.getD "")
               (setKey svcs service (newRecFor r username password tags)),
             true)
        | none => (cats, false)
    | none => (cats, false)
  else update_scan service username password tags cats

/-- The all-categories scan of delete_password (src/passmanager.py:184-190). -/
def delete_scan (service : String) : CatMap → CatMap × Bool
  | [] => ([], false)
  | (c, svcs) :: rest =>
      if containsKey svcs service then ((c, eraseKey svcs service) :: rest, true)
      else
        let res := delete_scan service rest
        ((c, svcs) :: res.1, res.2)

/-- PasswordManager.delete_password (src/passmanager.py:168-191). -/
def delete_password (cats : CatMap) (service : String)
    (category : Option String) : CatMap × Bool :=
  if truthy category then
    match lookupKey cats (category.getD "") with
    | some svcs =>
        if containsKey svcs service then
          (setKey cats (category.getD "") (eraseKey svcs service), true)
        else (cats, false)
    | none => (cats, false)
  else delete_scan service cats

/-- The keyword test of search_password (src/passmanager.py:200):
`keyword.lower() in service.lower()`, a case-insensitive substring match
against the service name only. -/
def keywordMatch (keyword service : String) : Bool :=
  substr (lowerStr keyword) (lowerStr service)

/-- The tag test of search_password (src/passmanager.py:203-207): when the
tag argument is truthy, require a non-empty tag list containing the tag
case-insensitively; otherwise always true. -/
def tagMatch (tagArg : Option String) (r : Record) : Bool :=
  if truthy tagArg then
    match r.tags with
    | some ts =>
        if ts.isEmpty then false
        else (ts.map lowerStr).contains (lowerStr (tagArg.getD ""))
    | none => false
  else true

/-- The per-category result loop of search_password
(src/passmanager.py:198-210): `results[service] = creds` for each match,
later matches overwriting earlier ones of the same service name. -/
def searchFold (keyword : String) (tagArg : Option String) (acc : Services) :
    Services → Services
  | [] => acc
  | (s, r) :: rest =>
      if keywordMatch keyword s && tagMatch tagArg r then
        searchFold keyword tagArg (setKey acc s r) rest
      else searchFold keyword tagArg acc rest

/-- The all-categories loop of search_password (src/passmanager.py:212-226). -/
def searchAll (keyword : String) (tagArg : Option String) (acc : Services) :
    CatMap → Services
  | [] => acc
  | (_, svcs) :: rest =>
      searchAll keyword tagArg (searchFold keyword tagArg acc svcs) rest

/-- PasswordManager.search_password (src/passmanager.py:193-227). -/
def search_password (cats : CatMap) (keyword : String)
    (category tagArg : Option String) : Services :=
  if truthy category then
    match lookupKey cats (category.getD "") with
    | some svcs => searchFold keyword tagArg [] svcs
    | none => []
  else searchAll keyword tagArg [] cats

/-- PasswordManager.get_categories (src/passmanager.py:229-230). -/
def get_categories (cats : CatMap) : List String := cats.map Prod.fst

/-- All services of all categories, in iteration order. -/
def flattenSvcs : CatMap → Services
  | [] => []
  | (_, svcs) :: rest => svcs ++ flattenSvcs rest

/-- The services reachable by a search: the selected category when the
category argument is truthy, all services otherwise. -/
def scopeServices (cats : CatMap) (category : Option String) : Services :=
  if truthy category then (lookupKey cats (category.getD "")).getD []
  else flattenSvcs cats

/-! The typed migration, the same algorithm as the dynamic one, acting on
the well-formed category mapping. -/

/-- The ensure-new-categories loop of migrate_categories
(src/passmanager.py:92-94). -/
def ensureNewLoop : List String → CatMap → CatMap
  | [], cats => cats
  | nc :: rest, cats =>
      ensureNewLoop rest (if containsKey cats nc then cats else setKey cats nc [])

/-- The inner copy loop of migrate_categories (src/passmanager.py:101-102). -/
def copyInto (dst : Services) : Services → Services
  | [] => dst
  | (s, d) :: rest => copyInto (setKey dst s d) rest

/-- One iteration of the outer loop of migrate_categories
(src/passmanager.py:97-104).  The new category is always present here
because the ensure loop ran first, so the `getD []` default is never
taken in the contexts where the step is used. -/
def migrateStep (cats : CatMap) (i : Nat) (oc : String) : CatMap :=
  match lookupKey cats oc with
  | some oldSvcs =>
      if i < newCategories.length then
        let nc := newCategories.getD i ""
        let cats2 := setKey cats nc (copyInto ((lookupKey cats nc).getD []) oldSvcs)
        eraseKey cats2 oc
      else cats
  | none => cats

def migrateLoop : List (Nat × String) → CatMap → CatMap
  | [], cats => cats
  | (i, oc) :: rest, cats => migrateLoop rest (migrateStep cats i oc)

/-- PasswordManager.migrate_categories (src/passmanager.py:86-106) on the
typed category mapping. -/
def migrate_categories (cats : CatMap) : CatMap :=
  migrateLoop oldCategories.enum (ensureNewLoop newCategories cats)

/-- PasswordManager.check_and_migrate_categories (src/passmanager.py:71-84)
on the typed category mapping. -/
def check_and_migrate_categories (cats : CatMap) : CatMap :=
  if oldCategories.any (fun o => containsKey cats o) then migrate_categories cats
  else cats

/-! CSV bulk load (PasswordManager, src/passmanager.py:232-245). -/

/-- One parsed CSV row: the dict csv.DictReader yields. -/
abbrev CsvRow := List (String × String)

def rowGet (row : CsvRow) (k : String) : Option String := lookupKey row k

/-- A row on which `row[...]` raises no KeyError for the three required
fields. -/
def rowOk (row : CsvRow) : Bool :=
  (rowGet row "service").isSome && (rowGet row "username").isSome &&
    (rowGet row "password").isSome

/-- The body of the row loop (src/passmanager.py:237-241): apply
add_password with the category defaulting to the legacy token "1" when the
field is absent, and no tags. -/
def applyRow (cats : CatMap) (row : CsvRow) : CatMap :=
  add_password cats ((rowGet row "service").getD "")
    ((rowGet row "username").getD "") ((rowGet row "password").getD "")
    ((rowGet row "category").getD "1") none

/-- PasswordManager.import_passwords (src/passmanager.py:232-245) on the
parsed row list: a row missing a required field raises KeyError, which the
surrounding try catches, returning False with the earlier rows applied. -/
def importPasswords (cats : CatMap) : List CsvRow → CatMap × Bool
  | [] => (cats, true)
  | row :: rest =>
      if rowOk row then importPasswords (applyRow cats row) rest
      else (cats, false)

/-! Password strength scoring
(PasswordManagerGUI.check_password_strength, src/passmanager.py:1236-1299). -/

def lenScore (n : Nat) : Int := if n < 8 then 0 else if 12 ≤ n then 25 else 10

def hasUpper (pw : String) : Bool := pw.data.any Char.isUpper

def hasLower (pw : String) : Bool := pw.data.any Char.isLower

def hasDigit (pw : String) : Bool := pw.data.any Char.isDigit

def hasSpecial (pw : String) : Bool := pw.data.any (fun c => !c.isAlphanum)

def commonPatterns : List String := ["123456", "password", "qwerty", "admin"]

def hasCommonPattern (pw : String) : Bool :=
  commonPatterns.any (fun pat => substr pat (lowerStr pw))

/-- The additive score of check_password_strength
(src/passmanager.py:1238-1277). -/
def strengthScore (pw : String) : Int :=
  lenScore pw.length
    + (if hasUpper pw then 10 else 0)
    + (if hasLower pw then 10 else 0)
    + (if hasDigit pw then 10 else 0)
    + (if hasSpecial pw then 15 else 0)
    - (if hasCommonPattern pw then 20 else 0)

/-- The severity tier thresholds (src/passmanager.py:1280-1291). -/
def strengthLabel (score : Int) : String :=
  if score < 30 then "Weak"
  else if score < 50 then "Moderate"
  else if score < 70 then "Strong"
  else "Very Strong"

def strengthColor (score : Int) : String :=
  if score < 30 then "#FF0000"
  else if score < 50 then "#FFA500"
  else if score < 70 then "#FFFF00"
  else "#00FF00"

/-- The feedback messages, in the order the source appends them. -/
def strengthFeedback (pw : String) : List String :=
  (if pw.length < 8 then ["Password is too short (minimum 8 characters)"] else [])
    ++ (if hasUpper pw then [] else ["Add uppercase letters"])
    ++ (if hasLower pw then [] else ["Add lowercase letters"])
    ++ (if hasDigit pw then [] else ["Add numbers"])
    ++ (if hasSpecial pw then [] else ["Add special characters"])
    ++ (if hasCommonPattern pw then ["Avoid common patterns"] else [])

/-- PasswordManagerGUI.check_password_strength (src/passmanager.py:1236-1299):
score, feedback message, color. -/
def check_password_strength (pw : String) : Int × String × String :=
  let score := strengthScore pw
  let strength := strengthLabel score
  let msg :=
    if (strengthFeedback pw).isEmpty then strength
    else strength ++ " - " ++ String.intercalate ", " (strengthFeedback pw)
  (score, msg, strengthColor score)

/-- The key-and-service-name shape of a category mapping: which categories
exist and which service names each holds.  Preserving it means no record
and no category is created or removed. -/
def shape (cats : CatMap) : List (String × List String) :=
  cats.map (fun e => (e.1, e.2.map Prod.fst))

/-! Round-trip lemmas: decoding is a left inverse of encoding. -/

theorem strListFromJson_map (ts : List String) :
    strListFromJson (ts.map Json.str) = some ts := by
  induction ts with
  | nil => rfl
  | cons t rest ih => simp [strListFromJson, ih]

theorem jsonToRec_recToJson (r : Record) : jsonToRec (recToJson r) = some r := by
  cases r with
  | mk u p tags =>
    cases tags with
    | none => rfl
    | some ts => simp [recToJson, jsonToRec, strListFromJson_map]

theorem jsonToSvcs_svcsToJson (svcs : Services) :
    jsonToSvcs (svcsToJson svcs) = some svcs := by
  induction svcs with
  | nil => rfl
  | cons p rest ih =>
    simp only [svcsToJson, jsonToSvcs, List.map_cons, svcsFromFields,
      jsonToRec_recToJson]
    simp only [svcsToJson, jsonToSvcs] at ih
    rw [ih]

theorem jsonToCats_catsToJson (cats : CatMap) :
    jsonToCats (catsToJson cats) = some cats := by
  induction cats with
  | nil => rfl
  | cons p rest ih =>
    simp only [catsToJson, jsonToCats, List.map_cons, catsFromFields,
      jsonToSvcs_svcsToJson]
    simp only [catsToJson, jsonToCats] at ih
    rw [ih]

/-- Claim C1: for every Database `D` (a JSON-serializable category mapping)
and key `K`, saving `D` with the store codec (save_passwords) and loading
the written blob back (load_passwords) with the same key yields exactly the
serialized database object, which decodes back to a Database equal to `D`. -/
theorem c1_save_load_round_trip (cats : CatMap) (k : Key) :
    load_passwords k (some (save_passwords k cats)) = Except.ok (dbToJson cats)
      ∧ jsonToDb (dbToJson cats) = some cats := by
  constructor
  · simp [load_passwords, save_passwords, fernetEncrypt, fernetDecrypt,
      jsonLoads]
  · simp [jsonToDb, dbToJson, jsonToCats_catsToJson]

/-! Association-list lemmas shared by the claim proofs. -/

theorem containsKey_eq_isSome_lookupKey {α : Type} (l : List (String × α))
    (k : String) : containsKey l k = (lookupKey l k).isSome := by
  induction l with
  | nil => rfl
  | cons p rest ih =>
    cases p with
    | mk k' v =>
      by_cases h : k' = k
      · simp [containsKey, lookupKey, h]
      · simp [containsKey, lookupKey, h, ih]

theorem containsKey_of_lookup {α : Type} {l : List (String × α)} {k : String}
    {v : α} (h : lookupKey l k = some v) : containsKey l k = true := by
  rw [containsKey_eq_isSome_lookupKey, h]
  rfl

theorem containsKey_setKey_self {α : Type} (l : List (String × α)) (k : String)
    (v : α) : containsKey (setKey l k v) k = true := by
  induction l with
  | nil => simp [setKey, containsKey]
  | cons p rest ih =>
    cases p with
    | mk k' v' =>
      by_cases h : k' = k
      · simp [setKey, containsKey, h]
      · simp [setKey, containsKey, h, ih]

theorem containsKey_setKey_mono {α : Type} {l : List (String × α)} {j : String}
    (k : String) (v : α) (h : containsKey l j = true) :
    containsKey (setKey l k v) j = true := by
  induction l with
  | nil => simp [containsKey] at h
  | cons p rest ih =>
    cases p with
    | mk k' v' =>
      by_cases hk : k' = k
      · subst hk
        by_cases hj : k' = j
        · subst hj
          simp [setKey, containsKey]
        · simp [containsKey, hj] at h
          simp [setKey, containsKey, hj]
          exact h
      · by_cases hj : k' = j
        · subst hj
          simp [setKey, containsKey, hk]
        · simp [containsKey, hj] at h
          simp [setKey, containsKey, hk, hj]
          exact ih h

theorem containsKey_setKey_ne {α : Type} {k j : String}
    (l : List (String × α)) (v : α) (h : k ≠ j) :
    containsKey (setKey l k v) j = containsKey l j := by
  induction l with
  | nil => simp [setKey, containsKey, h]
  | cons p rest ih =>
    cases p with
    | mk k' v' =>
      by_cases hk : k' = k
      · simp [setKey, containsKey, hk, h]
      · simp [setKey, containsKey, hk, ih]

theorem containsKey_eraseKey_self {α : Type} (l : List (String × α))
    (k : String) : containsKey (eraseKey l k) k = false := by
  induction l with
  | nil => rfl
  | cons p rest ih =>
    cases p with
    | mk k' v' =>
      by_cases h : k' = k
      · simp [eraseKey, h]
        exact ih
      · simp [eraseKey, h, containsKey]
        exact ih

theorem containsKey_eraseKey_ne {α : Type} {k j : String}
    (l : List (String × α)) (h : k ≠ j) :
    containsKey (eraseKey l k) j = containsKey l j := by
  induction l with
  | nil => rfl
  | cons p rest ih =>
    cases p with
    | mk k' v' =>
      by_cases hk : k' = k
      · subst hk
        have hj : k' ≠ j := h
        simp [eraseKey, containsKey, hj]
        exact ih
      · by_cases hj : k' = j
        · subst hj
          simp [eraseKey, hk, containsKey]
        · simp [eraseKey, hk, containsKey, hj]
          exact ih

theorem map_fst_setKey {α : Type} {l : List (String × α)} {k : String} (v : α)
    (h : containsKey l k = true) :
    (setKey l k v).map Prod.fst = l.map Prod.fst := by
  induction l with
  | nil => simp [containsKey] at h
  | cons p rest ih =>
    cases p with
    | mk k' v' =>
      by_cases hk : k' = k
      · simp [setKey, hk]
      · simp [containsKey, hk] at h
        simp [setKey, hk, ih h]

theorem mem_setKey {α : Type} {l : List (String × α)} {k : String} {v : α}
    {q : String × α} (h : q ∈ setKey l k v) : q ∈ l ∨ q = (k, v) := by
  induction l with
  | nil =>
    simp [setKey] at h
    right
    simp [h]
  | cons p rest ih =>
    cases p with
    | mk k' v' =>
      by_cases hk : k' = k
      · simp [setKey, hk] at h
        rcases h with h | h
        · right
          simp [h, hk]
        · left
          simp [h]
      · simp [setKey, hk] at h
        rcases h with h | h
        · left
          simp [h]
        · rcases ih h with h2 | h2
          · left
            simp [h2]
          · right
            exact h2

theorem shape_setKey {cats : CatMap} {c : String} {svcs : Services}
    (v : Services) (h : lookupKey cats c = some svcs)
    (hv : v.map Prod.fst = svcs.map Prod.fst) :
    shape (setKey cats c v) = shape cats := by
  induction cats with
  | nil => simp [lookupKey] at h
  | cons p rest ih =>
    cases p with
    | mk k' svcs' =>
      by_cases hk : k' = c
      · subst hk
        simp [lookupKey] at h
        subst h
        simp [setKey, shape, hv]
      · simp [lookupKey, hk] at h
        simp [setKey, hk, shape] at ih ⊢
        exact ih h

theorem update_scan_snd_false (service username password : String)
    (tags : Option (List String)) (cats : CatMap)
    (h : (update_scan service username password tags cats).2 = false) :
    (update_scan service username password tags cats).1 = cats := by
  induction cats with
  | nil => rfl
  | cons p rest ih =>
    cases p with
    | mk c svcs =>
      cases hl : lookupKey svcs service with
      | some r => simp [update_scan, hl] at h
      | none =>
        simp [update_scan, hl] at h ⊢
        exact ih h

theorem shape_update_scan (service username password : String)
    (tags : Option (List String)) (cats : CatMap) :
    shape (update_scan service username password tags cats).1 = shape cats := by
  induction cats with
  | nil => rfl
  | cons p rest ih =>
    cases p with
    | mk c svcs =>
      cases hl : lookupKey svcs service with
      | some r =>
        simp [update_scan, hl, shape]
        exact map_fst_setKey _ (containsKey_of_lookup hl)
      | none =>
        simp [update_scan, hl, shape] at ih ⊢
        exact ih

theorem update_scan_firstmatch (service username password : String)
    (tags : Option (List String)) :
    ∀ (pre : CatMap) (c : String) (svcs : Services) (post : CatMap)
      (r : Record),
      (∀ e, e ∈ pre → lookupKey e.2 service = none) →
      lookupKey svcs service = some r →
      update_scan service username password tags (pre ++ (c, svcs) :: post)
        = (pre ++
            (c, setKey svcs service (newRecFor r username password tags)) ::
              post,
           true) := by
  intro pre
  induction pre with
  | nil =>
    intro c svcs post r _ hr
    simp [update_scan, hr]
  | cons p rest ih =>
    intro c svcs post r hpre hr
    cases p with
    | mk c0 svcs0 =>
      have h0 : lookupKey svcs0 service = none := hpre (c0, svcs0) (by simp)
      have hrest : ∀ e, e ∈ rest → lookupKey e.2 service = none := by
        intro e he
        exact hpre e (by simp [he])
      simp [update_scan, h0, ih c svcs post r hrest hr]

theorem delete_scan_snd_false (service : String) (cats : CatMap)
    (h : (delete_scan service cats).2 = false) :
    (delete_scan service cats).1 = cats := by
  induction cats with
  | nil => rfl
  | cons p rest ih =>
    cases p with
    | mk c svcs =>
      by_cases hc : containsKey svcs service = true
      · simp [delete_scan, hc] at h
      · simp [delete_scan, hc] at h ⊢
        exact ih h

theorem map_fst_delete_scan (service : String) (cats : CatMap) :
    (delete_scan service cats).1.map Prod.fst = cats.map Prod.fst := by
  induction cats with
  | nil => rfl
  | cons p rest ih =>
    cases p with
    | mk c svcs =>
      by_cases hc : containsKey svcs service = true
      · simp [delete_scan, hc]
      · simp [delete_scan, hc]
        exact ih

theorem searchFold_mem (keyword : String) (tagArg : Option String)
    (svcs : Services) :
    ∀ (acc : Services) (q : String × Record),
      q ∈ searchFold keyword tagArg acc svcs →
      q ∈ acc ∨
        (q ∈ svcs ∧ keywordMatch keyword q.1 = true ∧
          tagMatch tagArg q.2 = true) := by
  induction svcs with
  | nil =>
    intro acc q h
    exact Or.inl h
  | cons p rest ih =>
    intro acc q h
    cases p with
    | mk s r =>
      by_cases hm : (keywordMatch keyword s && tagMatch tagArg r) = true
      · simp only [searchFold, hm, if_true] at h
        rcases ih (setKey acc s r) q h with h2 | h2
        · rcases mem_setKey h2 with h3 | h3
          · exact Or.inl h3
          · subst h3
            simp only [Bool.and_eq_true] at hm
            exact Or.inr ⟨by simp, hm.1, hm.2⟩
        · exact Or.inr ⟨by simp [h2.1], h2.2.1, h2.2.2⟩
      · simp only [searchFold, hm, if_false] at h
        rcases ih acc q h with h2 | h2
        · exact Or.inl h2
        · exact Or.inr ⟨by simp [h2.1], h2.2.1, h2.2.2⟩

theorem searchAll_mem (keyword : String) (tagArg : Option String)
    (cats : CatMap) :
    ∀ (acc : Services) (q : String × Record),
      q ∈ searchAll keyword tagArg acc cats →
      q ∈ acc ∨
        (q ∈ flattenSvcs cats ∧ keywordMatch keyword q.1 = true ∧
          tagMatch tagArg q.2 = true) := by
  induction cats with
  | nil =>
    intro acc q h
    exact Or.inl h
  | cons p rest ih =>
    intro acc q h
    cases p with
    | mk c svcs =>
      simp only [searchAll] at h
      rcases ih (searchFold keyword tagArg acc svcs) q h with h2 | h2
      · rcases searchFold_mem keyword tagArg svcs acc q h2 with h3 | h3
        · exact Or.inl h3
        · exact Or.inr ⟨by simp [flattenSvcs, h3.1], h3.2.1, h3.2.2⟩
      · exact Or.inr ⟨by simp [flattenSvcs, h2.1], h2.2.1, h2.2.2⟩

theorem searchFold_containsKey_mono (keyword : String) (tagArg : Option String)
    (svcs : Services) :
    ∀ (acc : Services) (s : String), containsKey acc s = true →
      containsKey (searchFold keyword tagArg acc svcs) s = true := by
  induction svcs with
  | nil =>
    intro acc s h
    exact h
  | cons p rest ih =>
    intro acc s h
    cases p with
    | mk s' r' =>
      by_cases hm : (keywordMatch keyword s' && tagMatch tagArg r') = true
      · simp only [searchFold, hm, if_true]
        exact ih (setKey acc s' r') s (containsKey_setKey_mono s' r' h)
      · simp only [searchFold, hm, if_false]
        exact ih acc s h

theorem searchFold_complete (keyword : String) (tagArg : Option String)
    (svcs : Services) :
    ∀ (acc : Services) (s : String) (r : Record), (s, r) ∈ svcs →
      keywordMatch keyword s = true → tagMatch tagArg r = true →
      containsKey (searchFold keyword tagArg acc svcs) s = true := by
  induction svcs with
  | nil =>
    intro acc s r h
    simp at h
  | cons p rest ih =>
    intro acc s r hmem hkw htag
    cases p with
    | mk s' r' =>
      rcases List.mem_cons.mp hmem with h | h
      · have hs : s' = s := by
          have := congrArg Prod.fst h.symm
          exact this
        have hr : r' = r := by
          have := congrArg Prod.snd h.symm
          exact this
        subst hs
        subst hr
        have hm : (keywordMatch keyword s' && tagMatch tagArg r') = true := by
          simp [hkw, htag]
        simp only [searchFold, hm, if_true]
        exact searchFold_containsKey_mono keyword tagArg rest _ s'
          (containsKey_setKey_self acc s' r')
      · by_cases hm : (keywordMatch keyword s' && tagMatch tagArg r') = true
        · simp only [searchFold, hm, if_true]
          exact ih (setKey acc s' r') s r h hkw htag
        · simp only [searchFold, hm, if_false]
          exact ih acc s r h hkw htag

theorem searchAll_containsKey_mono (keyword : String) (tagArg : Option String)
    (cats : CatMap) :
    ∀ (acc : Services) (s : String), containsKey acc s = true →
      containsKey (searchAll keyword tagArg acc cats) s = true := by
  induction cats with
  | nil =>
    intro acc s h
    exact h
  | cons p rest ih =>
    intro acc s h
    cases p with
    | mk c svcs =>
      simp only [searchAll]
      exact ih _ s (searchFold_containsKey_mono keyword tagArg svcs acc s h)

theorem searchAll_complete (keyword : String) (tagArg : Option String)
    (cats : CatMap) :
    ∀ (acc : Services) (s : String) (r : Record), (s, r) ∈ flattenSvcs cats →
      keywordMatch keyword s = true → tagMatch tagArg r = true →
      containsKey (searchAll keyword tagArg acc cats) s = true := by
  induction cats with
  | nil =>
    intro acc s r h
    simp [flattenSvcs] at h
  | cons p rest ih =>
    intro acc s r hmem hkw htag
    cases p with
    | mk c svcs =>
      simp only [flattenSvcs, List.mem_append] at hmem
      simp only [searchAll]
      rcases hmem with h | h
      · exact searchAll_containsKey_mono keyword tagArg rest _ s
          (searchFold_complete keyword tagArg svcs acc s r h hkw htag)
      · exact ih _ s r h hkw htag

/-! Migration lemmas. -/

theorem getD_newCategories_mem :
    ∀ i, i < newCategories.length → newCategories.getD i "" ∈ newCategories := by
  decide

theorem ensureNewLoop_contains_mono (d : String) :
    ∀ (l : List String) (cats : CatMap), containsKey cats d = true →
      containsKey (ensureNewLoop l cats) d = true := by
  intro l
  induction l with
  | nil =>
    intro cats h
    exact h
  | cons nc rest ih =>
    intro cats h
    by_cases hc : containsKey cats nc = true
    · simp [ensureNewLoop, hc]
      exact ih cats h
    · simp [ensureNewLoop, hc]
      exact ih _ (containsKey_setKey_mono nc [] h)

theorem ensureNewLoop_contains (d : String) :
    ∀ (l : List String) (cats : CatMap), d ∈ l →
      containsKey (ensureNewLoop l cats) d = true := by
  intro l
  induction l with
  | nil =>
    intro cats h
    simp at h
  | cons nc rest ih =>
    intro cats h
    rcases List.mem_cons.mp h with h | h
    · subst h
      by_cases hc : containsKey cats d = true
      · simp [ensureNewLoop, hc]
        exact ensureNewLoop_contains_mono d rest cats hc
      · simp [ensureNewLoop, hc]
        exact ensureNewLoop_contains_mono d rest _
          (containsKey_setKey_self cats d [])
    · by_cases hc : containsKey cats nc = true
      · simp [ensureNewLoop, hc]
        exact ih cats h
      · simp [ensureNewLoop, hc]
        exact ih _ h

theorem migrateStep_preserves_false {cats : CatMap} {o : String}
    (i : Nat) (oc : String) (ho : o ∉ newCategories)
    (h : containsKey cats o = false) :
    containsKey (migrateStep cats i oc) o = false := by
  cases hl : lookupKey cats oc with
  | none => simpa [migrateStep, hl] using h
  | some oldSvcs =>
    by_cases hi : i < newCategories.length
    · have hnc : newCategories.getD i "" ∈ newCategories :=
        getD_newCategories_mem i hi
      have hne : newCategories.getD i "" ≠ o := by
        intro he
        exact ho (he ▸ hnc)
      simp only [migrateStep, hl, hi, if_true]
      by_cases hoc : oc = o
      · subst hoc
        exact containsKey_eraseKey_self _ oc
      · rw [containsKey_eraseKey_ne _ hoc, containsKey_setKey_ne _ _ hne]
        exact h
    · simpa [migrateStep, hl, hi] using h

theorem migrateStep_contains_false {cats : CatMap} {o : String} {i : Nat}
    (hi : i < newCategories.length) :
    containsKey (migrateStep cats i o) o = false := by
  cases hl : lookupKey cats o with
  | none =>
    simp only [migrateStep, hl]
    rw [containsKey_eq_isSome_lookupKey, hl]
    rfl
  | some oldSvcs =>
    simp only [migrateStep, hl, hi, if_true]
    exact containsKey_eraseKey_self _ o

theorem migrateLoop_kills (o : String) (ho : o ∉ newCategories) :
    ∀ (l : List (Nat × String)) (cats : CatMap),
      (∀ q, q ∈ l → q.1 < newCategories.length) →
      (o ∈ l.map Prod.snd ∨ containsKey cats o = false) →
      containsKey (migrateLoop l cats) o = false := by
  intro l
  induction l with
  | nil =>
    intro cats _ h
    rcases h with h | h
    · simp at h
    · exact h
  | cons q rest ih =>
    intro cats hbound h
    cases q with
    | mk i oc =>
      have hleft : ∀ q, q ∈ rest → q.1 < newCategories.length := by
        intro q hq
        exact hbound q (by simp [hq])
      simp only [migrateLoop]
      by_cases hoc : oc = o
      · subst hoc
        by_cases hcz : containsKey cats oc = false
        · exact ih _ hleft (Or.inr (migrateStep_preserves_false i oc ho hcz))
        · have hi : i < newCategories.length := hbound (i, oc) (by simp)
          exact ih _ hleft (Or.inr (migrateStep_contains_false hi))
      · rcases h with h | h
        · simp only [List.map_cons, List.mem_cons] at h
          rcases h with h | h
          · exact absurd h.symm hoc
          · exact ih _ hleft (Or.inl h)
        · exact ih _ hleft (Or.inr (migrateStep_preserves_false i oc ho h))

theorem migrateStep_contains_mono {cats : CatMap} {d : String}
    (i : Nat) (oc : String) (hne : oc ≠ d)
    (h : containsKey cats d = true) :
    containsKey (migrateStep cats i oc) d = true := by
  cases hl : lookupKey cats oc with
  | none => simpa [migrateStep, hl] using h
  | some oldSvcs =>
    by_cases hi : i < newCategories.length
    · simp only [migrateStep, hl, hi, if_true]
      rw [containsKey_eraseKey_ne _ hne]
      exact containsKey_setKey_mono _ _ h
    · simpa [migrateStep, hl, hi] using h

theorem migrateLoop_contains_mono (d : String) :
    ∀ (l : List (Nat × String)) (cats : CatMap),
      (∀ q, q ∈ l → q.2 ≠ d) → containsKey cats d = true →
      containsKey (migrateLoop l cats) d = true := by
  intro l
  induction l with
  | nil =>
    intro cats _ h
    exact h
  | cons q rest ih =>
    intro cats hne h
    cases q with
    | mk i oc =>
      simp only [migrateLoop]
      exact ih _ (fun q hq => hne q (by simp [hq]))
        (migrateStep_contains_mono i oc (hne (i, oc) (by simp)) h)

theorem migrate_categories_no_legacy (cats : CatMap) :
    ∀ o, o ∈ oldCategories →
      containsKey (migrate_categories cats) o = false := by
  intro o ho
  have hall1 : ∀ x, x ∈ oldCategories → x ∉ newCategories := by decide
  have hall2 : ∀ x, x ∈ oldCategories →
      x ∈ (oldCategories.enum).map Prod.snd := by decide
  have h3 : ∀ q, q ∈ oldCategories.enum → q.1 < newCategories.length := by
    decide
  exact migrateLoop_kills o (hall1 o ho) oldCategories.enum _ h3
    (Or.inl (hall2 o ho))

theorem migrate_categories_defaults (cats : CatMap) :
    ∀ d, d ∈ defaultCategories →
      containsKey (migrate_categories cats) d = true := by
  intro d hd
  have hnew : d ∈ newCategories := hd
  have hall : ∀ x, x ∈ defaultCategories →
      ∀ q, q ∈ oldCategories.enum → q.2 ≠ x := by decide
  exact migrateLoop_contains_mono d oldCategories.enum _ (hall d hd)
    (ensureNewLoop_contains d newCategories cats hnew)

/-! CSV lemmas. -/

theorem importPasswords_all_ok :
    ∀ (rows : List CsvRow) (cats : CatMap), rows.all rowOk = true →
      importPasswords cats rows = (rows.foldl applyRow cats, true) := by
  intro rows
  induction rows with
  | nil =>
    intro cats _
    rfl
  | cons row rest ih =>
    intro cats h
    simp only [List.all_cons, Bool.and_eq_true] at h
    simp only [importPasswords, h.1, if_true, List.foldl_cons]
    exact ih _ h.2

theorem importPasswords_abort (bad : CsvRow) (rest : List CsvRow)
    (hbad : rowOk bad = false) :
    ∀ (good : List CsvRow) (cats : CatMap), good.all rowOk = true →
      importPasswords cats (good ++ bad :: rest)
        = (good.foldl applyRow cats, false) := by
  intro good
  induction good with
  | nil =>
    intro cats _
    simp [importPasswords, hbad]
  | cons row grest ih =>
    intro cats h
    simp only [List.all_cons, Bool.and_eq_true] at h
    simp only [List.cons_append, importPasswords, h.1, if_true,
      List.foldl_cons]
    exact ih _ h.2

/-! The claims. -/

/-- Claim C2, counterexample: a blob that decrypts fine to the valid JSON
object with the single key "x" — not a well-formed Database — does not make
store initialization fail with a typed error: the constructor silently
treats it like a fresh store, installs the default categories next to the
stray key and succeeds, contrary to the claim that a plaintext that is not
a well-formed Database is fatal with a distinct typed error. -/
theorem c2_counterexample :
    jsonToDb (Json.obj [("x", Json.num 1)]) = none
    ∧ initStore 0 (some (fernetEncrypt 0 (Json.obj [("x", Json.num 1)])))
        = Except.ok (Json.obj [("x", Json.num 1),
            ("categories",
             Json.obj (defaultCategories.map (fun c => (c, Json.obj []))))]) :=
  ⟨rfl, rfl⟩

/-- Claim C2 (amended): when the blob file does not exist, load_passwords
returns the empty object (an empty Database); when the blob exists but was
encrypted under a different key, store initialization fails with the
decryption error (InvalidToken); when decryption succeeds but the plaintext
is not valid JSON, it fails with the parse error (JSONDecodeError) — in
neither failure case does it silently return an empty Database.  Valid JSON
that is not a well-formed Database is, however, not rejected with a typed
error (see the counterexample). -/
theorem c2_load_failures_amended (k k2 : Key) (pt : Option Json) :
    load_passwords k none = Except.ok (Json.obj [])
    ∧ (k ≠ k2 → initStore k (some ⟨k2, pt⟩) = Except.error PyErr.invalidToken)
    ∧ initStore k (some ⟨k, none⟩) = Except.error PyErr.jsonDecodeError := by
  refine ⟨rfl, ?_, ?_⟩
  · intro h
    simp [initStore, load_passwords, fernetDecrypt, h, Bind.bind, Except.bind]
  · simp [initStore, load_passwords, fernetDecrypt, jsonLoads, Bind.bind,
      Except.bind]

/-- Claim C2, witness for the amended theorem at concrete keys 0 ≠ 1. -/
theorem c2_witness :
    initStore 0 (some ⟨1, none⟩) = Except.error PyErr.invalidToken :=
  (c2_load_failures_amended 0 1 none).2.1 (by decide)

/-- Claim C3: save_passwords opens the live blob path in truncating write
mode and writes the ciphertext in place; its file-system trace contains the
truncating open of the blob path and no rename at all, so the claimed
write-to-temporary-then-atomic-rename discipline is absent from the code. -/
theorem c3_save_truncates_in_place :
    save_passwords_trace "passwords.json"
        = [FsOp.makedirsParent "passwords.json",
           FsOp.openTruncWrite "passwords.json",
           FsOp.writeBytes "passwords.json"]
    ∧ FsOp.openTruncWrite "passwords.json" ∈ save_passwords_trace "passwords.json"
    ∧ (save_passwords_trace "passwords.json").all
        (fun op => !(isRenameOp op)) = true :=
  ⟨rfl, by decide, by decide⟩

/-- Claim C4, counterexample: loading a blob whose category mapping exists
but is empty (no legacy keys, no defaults) initializes successfully and
keeps the mapping empty — "Internet" is a default category yet absent after
initialization, contrary to the claimed invariant for every loaded
Database. -/
theorem c4_counterexample :
    initStore 0 (some (fernetEncrypt 0 (Json.obj [("categories", Json.obj [])])))
        = Except.ok (Json.obj [("categories", Json.obj [])])
    ∧ jsonToDb (Json.obj [("categories", Json.obj [])]) = some []
    ∧ "Internet" ∈ defaultCategories
    ∧ containsKey ([] : CatMap) "Internet" = false :=
  ⟨rfl, rfl, by decide, rfl⟩

/-- Claim C4 (amended): a Database created fresh (no blob file) contains
every default category, each empty; whenever migration runs, the migrated
mapping contains every default category; and delete_password never removes
a category — the category key list is unchanged by every delete.  A loaded
blob that already has a "categories" mapping without legacy keys is kept
as-is even when default categories are missing (see the counterexample). -/
theorem c4_categories_amended (k : Key) (cats : CatMap) :
    initStore k none
        = Except.ok (Json.obj [("categories",
            Json.obj (defaultCategories.map (fun c => (c, Json.obj []))))])
    ∧ (∀ d, d ∈ defaultCategories →
        containsKey (migrate_categories cats) d = true)
    ∧ (∀ service category,
        get_categories (delete_password cats service category).1
          = get_categories cats) := by
  refine ⟨rfl, migrate_categories_defaults cats, ?_⟩
  intro service category
  by_cases ht : truthy category = true
  · simp only [delete_password, ht, if_true]
    cases hl : lookupKey cats (category.getD "") with
    | none => rfl
    | some svcs =>
      by_cases hc : containsKey svcs service = true
      · simp only [hc, if_true, get_categories]
        exact map_fst_setKey _ (containsKey_of_lookup hl)
      · simp [hc]
  · simp only [delete_password, ht, Bool.false_eq_true, if_false,
      get_categories]
    exact map_fst_delete_scan service cats

/-- Claim C4, witness for the amended theorem at a concrete store. -/
theorem c4_witness :
    containsKey (migrate_categories [("Internet", [])]) "Internet" = true
    ∧ get_categories (delete_password [("Internet", [])] "Mail" none).1
        = get_categories [("Internet", [])] :=
  ⟨(c4_categories_amended 0 [("Internet", [])]).2.1 "Internet" (by decide),
   (c4_categories_amended 0 [("Internet", [])]).2.2 "Mail" none⟩

/-- Claim C5, counterexample: the empty string is a given category (a
category named "" exists and holds the service), yet update_password treats
it like an omitted category (Python truthiness of `if category:`), scans all
categories, rewrites the record in category "A" and leaves the exact pair
("", "s") untouched — contrary to the claimed exact-pair rule for a given
category. -/
theorem c5_counterexample :
    update_password
        [("A", [("s", ⟨"u1", "p1", some ["a"]⟩)]),
         ("", [("s", ⟨"u2", "p2", some ["b"]⟩)])]
        "s" "u3" "p3" (some "") none
      = ([("A", [("s", ⟨"u3", "p3", some ["a"]⟩)]),
          ("", [("s", ⟨"u2", "p2", some ["b"]⟩)])], true) := by
  decide

/-- Claim C5 (amended): update_password replaces username/password at the
exact (category, service) pair when a non-empty category is given (an empty
string behaves like an omitted category, falling through to the scan);
with category omitted (or falsy) it updates the first category containing
the service in iteration order; when it returns false the database is
unchanged (and no persist happens, the flag being exactly the persist);
no call ever creates or removes a record or category (the shape is
preserved); the tag list is replaced wholesale when tags is given
(including the empty list) and preserved — empty for a legacy record —
when tags is omitted. -/
theorem c5_update_amended (cats : CatMap) (service username password : String)
    (category : Option String) (tags : Option (List String)) :
    (∀ c svcs r, category = some c → c ≠ "" →
       lookupKey cats c = some svcs → lookupKey svcs service = some r →
       update_password cats service username password category tags
         = (setKey cats c
              (setKey svcs service (newRecFor r username password tags)),
            true))
    ∧ ((update_password cats service username password category tags).2 = false →
        (update_password cats service username password category tags).1 = cats)
    ∧ shape (update_password cats service username password category tags).1
        = shape cats
    ∧ (∀ pre c svcs post r, truthy category = false →
         cats = pre ++ (c, svcs) :: post →
         (∀ e, e ∈ pre → lookupKey e.2 service = none) →
         lookupKey svcs service = some r →
         update_password cats service username password category tags
           = (pre ++
               (c, setKey svcs service (newRecFor r username password tags)) ::
                 post,
              true))
    ∧ (∀ r ts, newRecFor r username password (some ts)
        = ⟨username, password, some ts⟩)
    ∧ (∀ r, newRecFor r username password none
        = ⟨username, password, some (r.tags.getD [])⟩) := by
  refine ⟨?_, ?_, ?_, ?_, fun r ts => rfl, fun r => rfl⟩
  · intro c svcs r hcat hne hl hs
    subst hcat
    have ht : truthy (some c) = true := by simp [truthy, hne]
    simp [update_password, ht, hl, hs]
  · by_cases ht : truthy category = true
    · simp only [update_password, ht, if_true]
      cases hl : lookupKey cats (category.getD "") with
      | none =>
        intro _
        rfl
      | some svcs =>
        dsimp only
        cases hs : lookupKey svcs service with
        | none =>
          intro _
          rfl
        | some r =>
          intro hfalse
          simp at hfalse
    · simp only [update_password, ht, Bool.false_eq_true, if_false]
      exact update_scan_snd_false service username password tags cats
  · by_cases ht : truthy category = true
    · simp only [update_password, ht, if_true]
      cases hl : lookupKey cats (category.getD "") with
      | none => rfl
      | some svcs =>
        dsimp only
        cases hs : lookupKey svcs service with
        | none => rfl
        | some r =>
          exact shape_setKey _ hl
            (map_fst_setKey _ (containsKey_of_lookup hs))
    · simp only [update_password, ht, Bool.false_eq_true, if_false]
      exact shape_update_scan service username password tags cats
  · intro pre c svcs post r ht hcats hpre hs
    subst hcats
    simp only [update_password, ht, Bool.false_eq_true, if_false]
    exact update_scan_firstmatch service username password tags pre c svcs
      post r hpre hs

/-- Claim C5, witness for the amended theorem: exact-pair update with a
non-empty given category, tags omitted, at a concrete store. -/
theorem c5_witness :
    update_password [("A", [("s", ⟨"u1", "p1", some ["a"]⟩)])]
        "s" "u2" "p2" (some "A") none
      = ([("A", [("s", ⟨"u2", "p2", some ["a"]⟩)])], true) :=
  (c5_update_amended [("A", [("s", ⟨"u1", "p1", some ["a"]⟩)])]
      "s" "u2" "p2" (some "A") none).1
    "A" [("s", ⟨"u1", "p1", some ["a"]⟩)] ⟨"u1", "p1", some ["a"]⟩
    rfl (by decide) rfl rfl

/-- Claim C6, counterexample: the empty string is a non-null tag filter,
yet search_password treats it like no filter at all (Python truthiness of
`if tag:`): a record whose tag list is empty matches and is returned,
contrary to the claim that a record with no tags never matches a non-null
tag filter. -/
theorem c6_counterexample :
    search_password [("Internet", [("github", ⟨"u", "p", some []⟩)])]
        "git" none (some "")
      = [("github", ⟨"u", "p", some []⟩)] := by
  decide

/-- Claim C6 (amended): every result of search_password matches the keyword
as a case-insensitive substring of the service name only and passes the tag
test, and comes from the searched scope; conversely every in-scope record
matching keyword and tag test contributes its service name to the result
mapping (later matches of the same name overwriting earlier ones); and a
record with no tags (missing key or empty list) never matches a non-null
NON-EMPTY tag filter — the empty-string filter is treated as no filter (see
the counterexample). -/
theorem c6_search_amended (cats : CatMap) (keyword : String)
    (category tagArg : Option String) :
    (∀ s r, (s, r) ∈ search_password cats keyword category tagArg →
       keywordMatch keyword s = true ∧ tagMatch tagArg r = true
         ∧ (s, r) ∈ scopeServices cats category)
    ∧ (∀ s r, (s, r) ∈ scopeServices cats category →
         keywordMatch keyword s = true → tagMatch tagArg r = true →
         containsKey (search_password cats keyword category tagArg) s = true)
    ∧ (∀ t r, t ≠ "" → (r.tags = none ∨ r.tags = some []) →
         tagMatch (some t) r = false) := by
  refine ⟨?_, ?_, ?_⟩
  · intro s r h
    by_cases ht : truthy category = true
    · simp only [search_password, ht, if_true] at h
      cases hl : lookupKey cats (category.getD "") with
      | none =>
        rw [hl] at h
        simp at h
      | some svcs =>
        rw [hl] at h
        dsimp only at h
        rcases searchFold_mem keyword tagArg svcs [] (s, r) h with h2 | h2
        · simp at h2
        · refine ⟨h2.2.1, h2.2.2, ?_⟩
          simp [scopeServices, ht, hl]
          exact h2.1
    · simp only [search_password, ht, Bool.false_eq_true, if_false] at h
      rcases searchAll_mem keyword tagArg cats [] (s, r) h with h2 | h2
      · simp at h2
      · refine ⟨h2.2.1, h2.2.2, ?_⟩
        simp [scopeServices, ht, Bool.false_eq_true]
        exact h2.1
  · intro s r hmem hkw htag
    by_cases ht : truthy category = true
    · simp only [scopeServices, ht, if_true] at hmem
      cases hl : lookupKey cats (category.getD "") with
      | none =>
        rw [hl] at hmem
        simp at hmem
      | some svcs =>
        rw [hl] at hmem
        simp only [search_password, ht, if_true, hl]
        exact searchFold_complete keyword tagArg svcs [] s r hmem hkw htag
    · simp only [scopeServices, ht, Bool.false_eq_true, if_false] at hmem
      simp only [search_password, ht, Bool.false_eq_true, if_false]
      exact searchAll_complete keyword tagArg cats [] s r hmem hkw htag
  · intro t r ht hr
    have htt : truthy (some t) = true := by simp [truthy, ht]
    rcases hr with hr | hr
    · simp [tagMatch, htt, hr]
    · simp [tagMatch, htt, hr]

/-- Claim C6, witness for the amended theorem at a concrete store: the
matching record is found, and an empty-tag record fails a real tag filter. -/
theorem c6_witness :
    containsKey
        (search_password [("Internet", [("github", ⟨"u", "p", some ["work"]⟩)])]
          "GIT" none none)
        "github" = true
    ∧ tagMatch (some "work") (⟨"u", "p", some []⟩ : Record) = false :=
  ⟨(c6_search_amended [("Internet", [("github", ⟨"u", "p", some ["work"]⟩)])]
        "GIT" none none).2.1
      "github" ⟨"u", "p", some ["work"]⟩ (by decide) (by decide) (by decide),
   (c6_search_amended [] "" none (some "work")).2.2 "work"
      ⟨"u", "p", some []⟩ (by decide) (Or.inr rfl)⟩

/-- Claim C7: category migration, as the engine runs it on load
(check_and_migrate_categories), is idempotent — applying it twice yields
the same Database state as applying it once — and it is a no-op whenever
no legacy category identifier is present as a key. -/
theorem c7_migration_idempotent (cats : CatMap) :
    check_and_migrate_categories (check_and_migrate_categories cats)
      = check_and_migrate_categories cats
    ∧ (oldCategories.all (fun o => !(containsKey cats o)) = true →
        check_and_migrate_categories cats = cats) := by
  constructor
  · by_cases hc : (oldCategories.any (fun o => containsKey cats o)) = true
    · simp only [check_and_migrate_categories, hc, if_true]
      have h1 := migrate_categories_no_legacy cats "1" (by decide)
      have h2 := migrate_categories_no_legacy cats "2" (by decide)
      have h3 := migrate_categories_no_legacy cats "3" (by decide)
      have h4 := migrate_categories_no_legacy cats "4" (by decide)
      have hno : (oldCategories.any
          (fun o => containsKey (migrate_categories cats) o)) = false := by
        simp [oldCategories, h1, h2, h3, h4]
      simp [check_and_migrate_categories, hno]
    · simp [check_and_migrate_categories, hc]
  · intro h
    simp only [List.all_eq_true, Bool.not_eq_true'] at h
    have hany : (oldCategories.any (fun o => containsKey cats o)) = false := by
      simp [oldCategories, h "1" (by decide), h "2" (by decide),
        h "3" (by decide), h "4" (by decide)]
    simp [check_and_migrate_categories, hany]

/-- Claim C7, witness: migration is a no-op on a concrete legacy-free
store. -/
theorem c7_witness :
    check_and_migrate_categories [("Internet", [])] = [("Internet", [])] :=
  (c7_migration_idempotent [("Internet", [])]).2 (by decide)

/-- Claim C8: a CSV import applies every well-formed row through
add_password in order; the category field defaults to the legacy token "1"
(not the current default category) when absent; the first row missing a
required field aborts the whole import with a false result while every row
already applied stays applied — no rollback. -/
theorem c8_import_semantics (cats : CatMap) (rows good rest2 : List CsvRow)
    (bad : CsvRow) :
    (rows.all rowOk = true →
       importPasswords cats rows = (rows.foldl applyRow cats, true))
    ∧ (good.all rowOk = true → rowOk bad = false →
        importPasswords cats (good ++ bad :: rest2)
          = (good.foldl applyRow cats, false))
    ∧ (∀ row, rowGet row "category" = none →
        applyRow cats row
          = add_password cats ((rowGet row "service").getD "")
              ((rowGet row "username").getD "")
              ((rowGet row "password").getD "") "1" none) := by
  refine ⟨importPasswords_all_ok rows cats,
    fun hg hb => importPasswords_abort bad rest2 hb good cats hg, ?_⟩
  intro row hrow
  simp [applyRow, hrow]

/-- Claim C8, witness: one good row then a row missing its service field —
the import returns false with the first row applied under the legacy
category "1". -/
theorem c8_witness :
    importPasswords []
        [[("service", "Mail"), ("username", "alice"), ("password", "pw")],
         [("username", "bob")]]
      = ([("1", [("Mail", ⟨"alice", "pw", some []⟩)])], false) :=
  (c8_import_semantics [] []
      [[("service", "Mail"), ("username", "alice"), ("password", "pw")]]
      [] [("username", "bob")]).2.1 (by decide) (by decide)

/-- Claim C9: the strength score is monotone — when q is at least as long
as p, has every character class p has, and agrees with p on the presence of
each blocklisted common substring, the score of q is at least the score of
p. -/
theorem c9_score_monotone (p q : String)
    (hlen : p.length ≤ q.length)
    (hu : hasUpper p = true → hasUpper q = true)
    (hl : hasLower p = true → hasLower q = true)
    (hd : hasDigit p = true → hasDigit q = true)
    (hs : hasSpecial p = true → hasSpecial q = true)
    (hc : ∀ pat, pat ∈ commonPatterns →
      substr pat (lowerStr p) = substr pat (lowerStr q)) :
    (check_password_strength p).1 ≤ (check_password_strength q).1 := by
  show strengthScore p ≤ strengthScore q
  have hL : lenScore p.length ≤ lenScore q.length := by
    unfold lenScore
    split_ifs <;> omega
  have hU : (if hasUpper p then (10 : Int) else 0)
      ≤ (if hasUpper q then (10 : Int) else 0) := by
    cases hup : hasUpper p
    · cases hasUpper q <;> simp
    · simp [hu hup]
  have hLo : (if hasLower p then (10 : Int) else 0)
      ≤ (if hasLower q then (10 : Int) else 0) := by
    cases hlp : hasLower p
    · cases hasLower q <;> simp
    · simp [hl hlp]
  have hD : (if hasDigit p then (10 : Int) else 0)
      ≤ (if hasDigit q then (10 : Int) else 0) := by
    cases hdp : hasDigit p
    · cases hasDigit q <;> simp
    · simp [hd hdp]
  have hS : (if hasSpecial p then (15 : Int) else 0)
      ≤ (if hasSpecial q then (15 : Int) else 0) := by
    cases hsp : hasSpecial p
    · cases hasSpecial q <;> simp
    · simp [hs hsp]
  have hC : hasCommonPattern p = hasCommonPattern q := by
    have e1 := hc "123456" (by decide)
    have e2 := hc "password" (by decide)
    have e3 := hc "qwerty" (by decide)
    have e4 := hc "admin" (by decide)
    simp [hasCommonPattern, commonPatterns, e1, e2, e3, e4]
  unfold strengthScore
  rw [hC]
  have hF : (0 : Int) ≤ (if hasCommonPattern q then (20 : Int) else 0) ∨ True :=
    Or.inr trivial
  linarith [hL, hU, hLo, hD, hS]

/-- Claim C9, witness: a concrete comparable pair. -/
theorem c9_witness :
    (check_password_strength "abc").1 ≤ (check_password_strength "abcd").1 :=
  c9_score_monotone "abc" "abcd" (by decide) (by decide) (by decide)
    (by decide) (by decide) (by decide)

/-- Claim C10: the strength score is not bounded below by zero — the
password "123456" (shorter than 8 characters, all digits, containing a
blocklisted pattern) scores -10 — and every score below 30, negative ones
included, maps to the "Weak" tier. -/
theorem c10_score_unbounded_below :
    (check_password_strength "123456").1 = -10
    ∧ (check_password_strength "123456").1 < 0
    ∧ (∀ s : Int, s < 30 → strengthLabel s = "Weak")
    ∧ strengthLabel (check_password_strength "123456").1 = "Weak" := by
  refine ⟨by decide, by decide, ?_, by decide⟩
  intro s hs
  simp [strengthLabel, hs]

/-- Claim C10, witness: a concrete negative score is labelled "Weak". -/
theorem c10_witness : strengthLabel (-10) = "Weak" :=
  c10_score_unbounded_below.2.2.1 (-10) (by decide)
